import Mathlib

/-!
Verification of the core of `create_poster.py` (GpxTrackPoster).

The Python source is shallowly embedded:
* floats become exact rationals (`ℚ`),
* `datetime.datetime` becomes `Time` (absolute seconds + microseconds, plus
  the calendar `year` attribute carried as a field),
* the mutable `Track` object becomes a record updated by explicit state
  passing,
* fallible deserialization is modelled with `Option`-valued raw fields,
* the real-valued Mercator projection is embedded over `ℝ`.
-/

/-- Model of `datetime.datetime` at the precision the program relies on:
an absolute instant given as whole seconds since an epoch plus a microsecond
part (`0 ≤ usec < 10^6` for values arising from real datetimes), together
with the calendar `year` attribute of the instant.  Calendar/epoch
conversion is orthogonal to every claim, so `year` is carried as a field. -/
structure Time where
  sec : Int
  usec : Nat
  year : Int
deriving DecidableEq, Repr

/-- Value of a time in seconds, as `timedelta.total_seconds()` computes it
(exactly, in the rational model). -/
def Time.toQ (t : Time) : ℚ := (t.sec : ℚ) + (t.usec : ℚ) / 1000000

/-- Model of the `Track` class: `file_names`, `polylines` (lists of
(latitude, longitude) pairs), optional `start_time` / `end_time`,
`length` in meters, and the `highlight` flag. -/
structure Track where
  file_names : List String
  polylines : List (List (ℚ × ℚ))
  start_time : Option Time
  end_time : Option Time
  length : ℚ
  highlight : Bool
deriving DecidableEq, Repr

/-- `Track.__init__`: the freshly constructed track. -/
def track0 : Track :=
  { file_names := [], polylines := [], start_time := none, end_time := none,
    length := 0, highlight := false }

/-- `Track.append` (src/create_poster.py lines 64-69): merge `other` into
`self` in place; modelled as producing the updated record. -/
def Track.append (t other : Track) : Track :=
  { t with
    end_time := other.end_time,
    polylines := t.polylines ++ other.polylines,
    length := t.length + other.length,
    file_names := t.file_names ++ other.file_names,
    highlight := t.highlight || other.highlight }

/-- Seconds value of an optional time.  In the merge pass of `load_tracks`
every track reaching the subtraction has its `start_time` set (the year
filter removed unset ones); a `none` here would be a `TypeError` in the
source, the default is never exercised and the theorems assume `some`. -/
def timeQ : Option Time → ℚ
  | none => 0
  | some t => t.toQ

/-- `merged_tracks[-1].append(t)`: replace the last session of `l` by the
session with `t` appended.  `l = []` is unreachable in the source (it would
be an `IndexError`). -/
def append_last (l : List Track) (t : Track) : List Track :=
  match l.getLast? with
  | none => l
  | some u => l.dropLast ++ [u.append t]

/-- One iteration of the merge loop of `load_tracks` (lines 149-159): state
is (merged_tracks, last_end_time); `last_end_time` is updated to the current
track's (pre-merge) end time unconditionally. -/
def merge_step (st : List Track × Option Time) (t : Track) : List Track × Option Time :=
  match st.2 with
  | none => (st.1 ++ [t], t.end_time)
  | some le =>
    let dt := timeQ t.start_time - le.toQ
    if 0 < dt ∧ dt < 3600 then (append_last st.1 t, t.end_time)
    else (st.1 ++ [t], t.end_time)

/-- The whole merge pass: fold the loop over the sorted tracks starting
from `merged_tracks = []`, `last_end_time = None`. -/
def merge_pass (ts : List Track) : List Track :=
  (ts.foldl merge_step ([], none)).1

theorem append_last_length {l : List Track} (h : l ≠ []) (t : Track) :
    (append_last l t).length = l.length := by
  rcases List.exists_cons_of_ne_nil h with ⟨x, xs, rfl⟩
  have hl : (x :: xs).getLast? = some ((x :: xs).getLast (by simp)) :=
    List.getLast?_eq_getLast _ _
  simp [append_last, hl, List.length_dropLast]

theorem append_last_ne_nil {l : List Track} (h : l ≠ []) (t : Track) :
    append_last l t ≠ [] := by
  rcases List.exists_cons_of_ne_nil h with ⟨x, xs, rfl⟩
  have hl : (x :: xs).getLast? = some ((x :: xs).getLast (by simp)) :=
    List.getLast?_eq_getLast _ _
  simp [append_last, hl]

theorem merge_step_snd (st : List Track × Option Time) (t : Track) :
    (merge_step st t).2 = t.end_time := by
  rcases st with ⟨m, le⟩
  cases le with
  | none => rfl
  | some le => simp only [merge_step]; split <;> rfl

theorem merge_step_fst_ne_nil {st : List Track × Option Time} (h : st.1 ≠ []) (t : Track) :
    (merge_step st t).1 ≠ [] := by
  rcases st with ⟨m, le⟩
  cases le with
  | none => simp [merge_step]
  | some le =>
    simp only [merge_step]
    split
    · exact append_last_ne_nil h t
    · simp

theorem foldl_merge_fst_ne_nil {st : List Track × Option Time} (h : st.1 ≠ [])
    (l : List Track) : (l.foldl merge_step st).1 ≠ [] := by
  induction l generalizing st with
  | nil => exact h
  | cons x xs ih => exact ih (merge_step_fst_ne_nil h x)

theorem foldl_merge_snd (st : List Track × Option Time) (l : List Track) (a : Track) :
    ((l ++ [a]).foldl merge_step st).2 = a.end_time := by
  rw [List.foldl_append]
  exact merge_step_snd _ a

theorem merge_pass_ne_nil (l : List Track) (a : Track) :
    merge_pass (l ++ [a]) ≠ [] := by
  have h : l ++ [a] ≠ [] := by simp
  rcases List.exists_cons_of_ne_nil h with ⟨x, xs, hx⟩
  unfold merge_pass
  rw [hx]
  simp only [List.foldl_cons]
  exact foldl_merge_fst_ne_nil (by simp [merge_step]) xs

/-- C1: in the merge pass of `load_tracks`, for two chronologically adjacent
tracks `a` then `b` of the sorted list (any prefix `pre` before them), with
gap `dt = b.start_time - a.end_time` in seconds, processing `b` merges it
into the immediately preceding session (the session count stays the same and
the result is `append_last`) if and only if `0 < dt < 3600`; otherwise `b`
is appended as a new session. -/
theorem merge_threshold (pre : List Track) (a b : Track) (ae bs : Time)
    (ha : a.end_time = some ae) (hb : b.start_time = some bs) :
    ((merge_step ((pre ++ [a]).foldl merge_step ([], none)) b).1.length =
        ((pre ++ [a]).foldl merge_step ([], none)).1.length ↔
      (0 < bs.toQ - ae.toQ ∧ bs.toQ - ae.toQ < 3600)) ∧
    ((0 < bs.toQ - ae.toQ ∧ bs.toQ - ae.toQ < 3600) →
      (merge_step ((pre ++ [a]).foldl merge_step ([], none)) b).1 =
        append_last ((pre ++ [a]).foldl merge_step ([], none)).1 b) ∧
    (¬(0 < bs.toQ - ae.toQ ∧ bs.toQ - ae.toQ < 3600) →
      (merge_step ((pre ++ [a]).foldl merge_step ([], none)) b).1 =
        ((pre ++ [a]).foldl merge_step ([], none)).1 ++ [b]) := by
  set s1 := (pre ++ [a]).foldl merge_step ([], none) with hs1
  have hsnd : s1.2 = some ae := by
    rw [hs1, foldl_merge_snd, ha]
  have hne : s1.1 ≠ [] := by
    have := merge_pass_ne_nil pre a
    unfold merge_pass at this
    exact this
  have hdt : timeQ b.start_time - ae.toQ = bs.toQ - ae.toQ := by rw [hb]; rfl
  by_cases hc : 0 < bs.toQ - ae.toQ ∧ bs.toQ - ae.toQ < 3600
  · have hstep : (merge_step s1 b).1 = append_last s1.1 b := by
      rcases hst : s1 with ⟨m, le⟩
      rw [hst] at hsnd
      simp only at hsnd
      subst hsnd
      simp only [merge_step, hdt]
      rw [if_pos hc]
    refine ⟨?_,fun _ => hstep, fun hn => absurd hc hn⟩
    rw [hstep]
    simp only [append_last_length hne b, true_iff]
    exact hc
  · have hstep : (merge_step s1 b).1 = s1.1 ++ [b] := by
      rcases hst : s1 with ⟨m, le⟩
      rw [hst] at hsnd
      simp only at hsnd
      subst hsnd
      simp only [merge_step, hdt]
      rw [if_neg hc]
    refine ⟨?_, fun hy => absurd hy hc, fun _ => hstep⟩
    rw [hstep]
    simp only [List.length_append, List.length_singleton]
    constructor
    · intro hlen; omega
    · intro hy; exact absurd hy hc

/-- A concrete track ending at t = 0 s of year 2016. -/
def trackA : Track :=
  { file_names := ["a.gpx"], polylines := [[(1, 2)]],
    start_time := some ⟨-100, 0, 2016⟩, end_time := some ⟨0, 0, 2016⟩,
    length := 2000, highlight := false }

/-- A concrete track starting 100 s after `trackA` ends. -/
def trackB : Track :=
  { file_names := ["b.gpx"], polylines := [[(3, 4)]],
    start_time := some ⟨100, 0, 2016⟩, end_time := some ⟨200, 0, 2016⟩,
    length := 1500, highlight := true }

/-- C1 witness: with a 100 s gap the second track is merged (session count
unchanged). -/
theorem merge_threshold_witness :
    (merge_step (([] ++ [trackA]).foldl merge_step ([], none)) trackB).1.length =
      (([] ++ [trackA]).foldl merge_step ([], none)).1.length :=
  (merge_threshold [] trackA trackB ⟨0, 0, 2016⟩ ⟨100, 0, 2016⟩ rfl rfl).1.mpr
    (by constructor <;> norm_num [Time.toQ])

/-- C8: `Track.append` concatenates polylines and file names in temporal
order (self's then other's), sums lengths (hence the sum is non-negative
when both inputs are), ORs the highlight flags, and takes the end time from
the appended track. -/
theorem track_append_spec (a b : Track) :
    (a.append b).polylines = a.polylines ++ b.polylines ∧
    (a.append b).file_names = a.file_names ++ b.file_names ∧
    (a.append b).length = a.length + b.length ∧
    (0 ≤ a.length → 0 ≤ b.length → 0 ≤ (a.append b).length) ∧
    (a.append b).highlight = (a.highlight || b.highlight) ∧
    (a.append b).end_time = b.end_time :=
  ⟨rfl, rfl, rfl, fun h1 h2 => add_nonneg h1 h2, rfl, rfl⟩

/-- C8 witness: the merged length of two concrete tracks is non-negative. -/
theorem track_append_spec_witness : 0 ≤ (trackA.append trackB).length :=
  (track_append_spec trackA trackB).2.2.2.1 (by norm_num [trackA])
    (by norm_num [trackB])

/-- The persisted cache entry as `store_cache` writes it (lines 81-95):
start and end formatted with strftime at whole-second precision (the
microsecond part of the datetime is dropped by the `%Y-%m-%d %H:%M:%S`
format), the float length, and the list of segments of float (lat, lng)
pairs (JSON float serialization is exact, hence rationals). -/
structure CacheData where
  start : Time
  stop : Time
  length : ℚ
  segments : List (List (ℚ × ℚ))
deriving DecidableEq, Repr

/-- A cache file as `load_cache` (lines 71-79) sees it after `json.load`:
each field is the result of the corresponding fallible conversion
(`strptime`, `float`, key lookup); `none` models a missing key or a value
whose conversion raises.  Each point of a segment is itself fallible. -/
structure RawEntry where
  start : Option Time
  stop : Option Time
  length : Option ℚ
  segments : Option (List (List (Option (ℚ × ℚ))))
deriving DecidableEq, Repr

/-- Truncate a datetime to whole seconds, as formatting it with
`%Y-%m-%d %H:%M:%S` and parsing it back does. -/
def Time.truncSec (t : Time) : Time := ⟨t.sec, 0, t.year⟩

/-- `Track.store_cache`: serialize the track; `self.start_time.strftime`
raises on an unset time, so serialization only succeeds when both times are
set (directory creation and file writing are I/O and carry no data). -/
def Track.store_cache (t : Track) : Option CacheData :=
  match t.start_time, t.end_time with
  | some s, some e =>
    some { start := s.truncSec, stop := e.truncSec, length := t.length,
           segments := t.polylines }
  | _, _ => none

/-- Reading a well-formed serialized entry back: every conversion in
`load_cache` succeeds on data produced by `store_cache`, so all fields are
present. -/
def CacheData.toRaw (d : CacheData) : RawEntry :=
  { start := some d.start, stop := some d.stop, length := some d.length,
    segments := some (d.segments.map (fun l => l.map some)) }

/-- The list comprehension `[(float(d["lat"]), float(d["lng"])) for d in
data_line]`: it raises at the first malformed point, in which case the
whole line is discarded. -/
def allSome : List (Option (ℚ × ℚ)) → Option (List (ℚ × ℚ))
  | [] => some []
  | none :: _ => none
  | some p :: rest => (allSome rest).map (p :: ·)

/-- The `for data_line in data["segments"]` loop: lines are appended one by
one; the loop raises at the first line with a malformed point, leaving the
already-appended prefix in place.  Returns (appended lines, success). -/
def takeGoodLines : List (List (Option (ℚ × ℚ))) → List (List (ℚ × ℚ)) × Bool
  | [] => ([], true)
  | l :: ls =>
    match allSome l with
    | none => ([], false)
    | some l' =>
      let r := takeGoodLines ls
      (l' :: r.1, r.2)

/-- `Track.load_cache` on the already-JSON-parsed entry: assignments happen
in source order (start, end, length, reset polylines, append segment
lines); an exception leaves the fields assigned so far in place.  Returns
the updated track and whether the whole load succeeded. -/
def Track.load_cache (t : Track) (d : RawEntry) : Track × Bool :=
  match d.start with
  | none => (t, false)
  | some s =>
    let t1 := { t with start_time := some s }
    match d.stop with
    | none => (t1, false)
    | some e =>
      let t2 := { t1 with end_time := some e }
      match d.length with
      | none => (t2, false)
      | some len =>
        let t3 := { t2 with length := len, polylines := [] }
        match d.segments with
        | none => (t3, false)
        | some segs =>
          let r := takeGoodLines segs
          ({ t3 with polylines := r.1 }, r.2)

/-- The parse result the external `gpxpy` collaborator returns for a file:
time bounds, 2D length, and the (post-`simplify`) polylines. -/
structure Gpx where
  start : Option Time
  stop : Option Time
  length : ℚ
  lines : List (List (ℚ × ℚ))
deriving DecidableEq, Repr

/-- `Track.load_gpx_no_cache` (lines 43-59): sets `file_names`, time
bounds and length, then APPENDS the parsed lines to `self.polylines`
without resetting the list (`self.polylines.append(line)` in a loop).  The
final `store_cache` call is a cache-store side effect and does not change
the track. -/
def Track.load_gpx_no_cache (t : Track) (base : String) (g : Gpx) : Track :=
  { t with
    file_names := [base],
    start_time := g.start,
    end_time := g.stop,
    length := g.length,
    polylines := t.polylines ++ g.lines }

/-- `Track.load_gpx` (lines 27-41): `cache` is the deserialized cache file
when one exists for the file's checksum (`none`: no cache file, or
`json.load` itself raised before any field was assigned).  On a cache entry
that loads successfully only `file_names` is re-attached; on a load failure
the same track object falls through to `load_gpx_no_cache`. -/
def Track.load_gpx (t : Track) (cache : Option RawEntry) (base : String) (g : Gpx) : Track :=
  match cache with
  | some entry =>
    let r := t.load_cache entry
    if r.2 then { r.1 with file_names := [base] }
    else r.1.load_gpx_no_cache base g
  | none => t.load_gpx_no_cache base g

theorem allSome_map_some (l : List (ℚ × ℚ)) : allSome (l.map some) = some l := by
  induction l with
  | nil => rfl
  | cons p rest ih => simp [allSome, ih]

theorem takeGoodLines_map_some (ls : List (List (ℚ × ℚ))) :
    takeGoodLines (ls.map (fun l => l.map some)) = (ls, true) := by
  induction ls with
  | nil => rfl
  | cons l rest ih => simp [takeGoodLines, allSome_map_some, ih]

/-- A track whose start time carries a sub-second component
(microsecond = 500000). -/
def trackFrac : Track :=
  { file_names := ["c.gpx"], polylines := [[(1, 2)]],
    start_time := some ⟨0, 500000, 2016⟩, end_time := some ⟨10, 0, 2016⟩,
    length := 100, highlight := false }

/-- C2 counterexample: for a track whose start time has a non-zero
microsecond part, storing to the cache and reading back does NOT return an
identical `startTime`: the `%Y-%m-%d %H:%M:%S` round trip truncates it to
whole seconds. -/
theorem cache_roundtrip_cex :
    trackFrac.store_cache.map (fun d => (track0.load_cache d.toRaw).1.start_time) =
      some (some ⟨0, 0, 2016⟩) ∧
    trackFrac.start_time = some ⟨0, 500000, 2016⟩ ∧
    (some (⟨0, 0, 2016⟩ : Time) : Option Time) ≠ some ⟨0, 500000, 2016⟩ := by
  refine ⟨rfl, rfl, by simp⟩

/-- C2 (amended): for every track with set start and end times whose
sub-second parts are zero, storing to the cache and reading the entry back
(into a fresh track, as `load_gpx` does) recovers `startTime`, `endTime`,
`length` and all polyline coordinates exactly. -/
theorem cache_roundtrip (t : Track) (s e : Time)
    (hs : t.start_time = some s) (he : t.end_time = some e)
    (hus : s.usec = 0) (hue : e.usec = 0) :
    t.store_cache = some ⟨s.truncSec, e.truncSec, t.length, t.polylines⟩ ∧
    (track0.load_cache (CacheData.toRaw ⟨s.truncSec, e.truncSec, t.length, t.polylines⟩)).2
        = true ∧
    (track0.load_cache (CacheData.toRaw ⟨s.truncSec, e.truncSec, t.length, t.polylines⟩)).1.start_time
        = t.start_time ∧
    (track0.load_cache (CacheData.toRaw ⟨s.truncSec, e.truncSec, t.length, t.polylines⟩)).1.end_time
        = t.end_time ∧
    (track0.load_cache (CacheData.toRaw ⟨s.truncSec, e.truncSec, t.length, t.polylines⟩)).1.length
        = t.length ∧
    (track0.load_cache (CacheData.toRaw ⟨s.truncSec, e.truncSec, t.length, t.polylines⟩)).1.polylines
        = t.polylines := by
  have hstrunc : s.truncSec = s := by
    cases s with
    | mk sec usec year => simp only [Time.truncSec]; simp at hus; rw [hus]
  have hetrunc : e.truncSec = e := by
    cases e with
    | mk sec usec year => simp only [Time.truncSec]; simp at hue; rw [hue]
  refine ⟨?_, ?_, ?_, ?_, ?_, ?_⟩
  · simp [Track.store_cache, hs, he]
  · simp [Track.load_cache, CacheData.toRaw, takeGoodLines_map_some]
  · simp [Track.load_cache, CacheData.toRaw, takeGoodLines_map_some, hstrunc, hs]
  · simp [Track.load_cache, CacheData.toRaw, takeGoodLines_map_some, hetrunc, he]
  · simp [Track.load_cache, CacheData.toRaw, takeGoodLines_map_some]
  · simp [Track.load_cache, CacheData.toRaw, takeGoodLines_map_some]

/-- C2 witness: the round trip preserves all four fields of a concrete
track with whole-second times. -/
theorem cache_roundtrip_witness :
    trackA.store_cache =
      some ⟨Time.truncSec ⟨-100, 0, 2016⟩, Time.truncSec ⟨0, 0, 2016⟩,
        trackA.length, trackA.polylines⟩ ∧
    (track0.load_cache (CacheData.toRaw ⟨Time.truncSec ⟨-100, 0, 2016⟩,
        Time.truncSec ⟨0, 0, 2016⟩, trackA.length, trackA.polylines⟩)).2 = true ∧
    (track0.load_cache (CacheData.toRaw ⟨Time.truncSec ⟨-100, 0, 2016⟩,
        Time.truncSec ⟨0, 0, 2016⟩, trackA.length, trackA.polylines⟩)).1.start_time
      = trackA.start_time ∧
    (track0.load_cache (CacheData.toRaw ⟨Time.truncSec ⟨-100, 0, 2016⟩,
        Time.truncSec ⟨0, 0, 2016⟩, trackA.length, trackA.polylines⟩)).1.end_time
      = trackA.end_time ∧
    (track0.load_cache (CacheData.toRaw ⟨Time.truncSec ⟨-100, 0, 2016⟩,
        Time.truncSec ⟨0, 0, 2016⟩, trackA.length, trackA.polylines⟩)).1.length
      = trackA.length ∧
    (track0.load_cache (CacheData.toRaw ⟨Time.truncSec ⟨-100, 0, 2016⟩,
        Time.truncSec ⟨0, 0, 2016⟩, trackA.length, trackA.polylines⟩)).1.polylines
      = trackA.polylines :=
  cache_roundtrip trackA ⟨-100, 0, 2016⟩ ⟨0, 0, 2016⟩ rfl rfl rfl rfl

/-- A cache entry whose first segment line deserializes but whose second
line contains a malformed point, so `load_cache` raises halfway through the
segment loop. -/
def badEntry : RawEntry :=
  { start := some ⟨0, 0, 2016⟩, stop := some ⟨10, 0, 2016⟩, length := some 5,
    segments := some [[some (1, 2)], [none]] }

/-- The parse result of the underlying GPX file. -/
def gpxC : Gpx :=
  { start := some ⟨50, 0, 2016⟩, stop := some ⟨60, 0, 2016⟩, length := 5000,
    lines := [[(3, 4)]] }

/-- C6 (code bug): when the cache entry fails to deserialize after one
segment line was already appended, `load_gpx` falls through to re-parsing
WITHOUT resetting `polylines`, so the partially loaded cache line leaks
into the result: the track differs from the one produced with no cache
entry at all. -/
theorem cache_failure_leaks :
    (track0.load_gpx (some badEntry) "a.gpx" gpxC).polylines = [[(1, 2)], [(3, 4)]] ∧
    (track0.load_gpx none "a.gpx" gpxC).polylines = [[(3, 4)]] ∧
    track0.load_gpx (some badEntry) "a.gpx" gpxC ≠ track0.load_gpx none "a.gpx" gpxC := by
  refine ⟨rfl, rfl, ?_⟩
  intro h
  have hp := congrArg Track.polylines h
  rw [show (track0.load_gpx (some badEntry) "a.gpx" gpxC).polylines = [[(1, 2)], [(3, 4)]] from rfl,
    show (track0.load_gpx none "a.gpx" gpxC).polylines = [[(3, 4)]] from rfl] at hp
  simp at hp

/-- Python float floor division `a // b` (`math.floor(a/b)` as a float). -/
def pyFloorDiv (a b : ℚ) : ℚ := (⌊a / b⌋ : ℤ)

/-- Python float modulo `a % b` (`a - b * (a // b)`; the sign follows `b`). -/
def pyMod (a b : ℚ) : ℚ := a - b * (⌊a / b⌋ : ℤ)

/-- One iteration of the waste scan of `compute_grid` (lines 239-246):
state is (min_waste, best_size), updated when the candidate has
non-negative waste and either no best exists yet (`min_waste < 0`) or the
waste is strictly smaller. -/
def grid_step (count width height : ℚ) (mb : ℚ × ℚ) (x : ℕ) : ℚ × ℚ :=
  let s := width / (x : ℚ)
  let waste := width * height - count * s * s
  if waste < 0 then mb
  else if mb.1 < 0 ∨ waste < mb.1 then (waste, s) else mb

/-- `compute_grid` (lines 236-253): scan candidate column counts
`x = 1 .. width-1`, then derive `count_x = width / best_size`,
`count_y = ceil(count / count_x)` via floor-division and modulo, and the
row spacing.  Returns (best_size, count_x, count_y, spacing_y).  Exact
rational arithmetic stands in for Python floats. -/
def compute_grid (count width height : ℕ) : ℚ × ℚ × ℚ × ℚ :=
  let cq : ℚ := count
  let w : ℚ := width
  let h : ℚ := height
  let scan := (List.range' 1 (width - 1)).foldl (grid_step cq w h) (-1, -1)
  let best_size := scan.2
  let count_x := w / best_size
  let count_y0 := pyFloorDiv cq count_x
  let count_y := if pyMod cq count_x > 0 then count_y0 + 1 else count_y0
  let spacing_y := (h - count_y * best_size) / count_y
  (best_size, count_x, count_y, spacing_y)

/-- The waste of candidate column count `x`:
`width*height - count*(width/x)^2`. -/
def waste_of (count width height : ℕ) (x : ℕ) : ℚ :=
  (width : ℚ) * height - (count : ℚ) * ((width : ℚ) / x) * ((width : ℚ) / x)

/-- C4 (code bug evaluation): at `count = 5`, `width = 2`, `height = 2` the
only candidate column count in `range(1, 2)` is `x = 1`, its waste is
negative, and `compute_grid` silently returns the garbage layout
`(-1, -2, -3, 1/3)` instead of signalling a layout error. -/
theorem compute_grid_no_candidate_silent :
    compute_grid 5 2 2 = (-1, -2, -3, 1/3) ∧ waste_of 5 2 2 1 < 0 := by
  constructor
  · show (let cq : ℚ := 5; let w : ℚ := 2; let h : ℚ := 2;
      let scan := (List.range' 1 1).foldl (grid_step cq w h) (-1, -1);
      let best_size := scan.2;
      let count_x := w / best_size;
      let count_y0 := pyFloorDiv cq count_x;
      let count_y := if pyMod cq count_x > 0 then count_y0 + 1 else count_y0;
      let spacing_y := (h - count_y * best_size) / count_y;
      ((best_size, count_x, count_y, spacing_y) : ℚ × ℚ × ℚ × ℚ)) = (-1, -2, -3, 1/3)
    norm_num [List.range', grid_step, pyFloorDiv, pyMod]
  · norm_num [waste_of]

/-- Scan invariant: the state is the waste and tile size of some candidate
`x` (satisfying `S`) with non-negative waste. -/
def gridRD (cq w h : ℚ) (S : ℕ → Prop) (mb : ℚ × ℚ) : Prop :=
  ∃ x : ℕ, S x ∧ 0 ≤ w * h - cq * (w / x) * (w / x) ∧
    mb = (w * h - cq * (w / x) * (w / x), w / x)

theorem grid_step_cases (cq w h : ℚ) (mb : ℚ × ℚ) (x : ℕ) :
    grid_step cq w h mb x = mb ∨
    (0 ≤ w * h - cq * (w / x) * (w / x) ∧
      grid_step cq w h mb x = (w * h - cq * (w / x) * (w / x), w / x)) := by
  unfold grid_step
  dsimp only
  split_ifs with h1 h2
  · exact Or.inl rfl
  · exact Or.inr ⟨not_lt.mp h1, rfl⟩
  · exact Or.inl rfl

theorem grid_step_of_neg_best (cq w h : ℚ) {mb : ℚ × ℚ} (x : ℕ)
    (h1 : 0 ≤ w * h - cq * (w / x) * (w / x)) (h2 : mb.1 < 0) :
    grid_step cq w h mb x = (w * h - cq * (w / x) * (w / x), w / x) := by
  unfold grid_step
  dsimp only
  rw [if_neg (not_lt.mpr h1), if_pos (Or.inl h2)]

theorem grid_step_of_bad (cq w h : ℚ) {mb : ℚ × ℚ} (x : ℕ)
    (h1 : w * h - cq * (w / x) * (w / x) < 0) :
    grid_step cq w h mb x = mb := by
  unfold grid_step
  dsimp only
  rw [if_pos h1]

theorem foldl_grid_RD (cq w h : ℚ) (S : ℕ → Prop) (l : List ℕ)
    (hl : ∀ x ∈ l, S x) {mb : ℚ × ℚ} (hmb : gridRD cq w h S mb) :
    gridRD cq w h S (l.foldl (grid_step cq w h) mb) := by
  induction l generalizing mb with
  | nil => exact hmb
  | cons a l ih =>
    simp only [List.foldl_cons]
    refine ih (fun x hx => hl x (List.mem_cons_of_mem a hx)) ?_
    rcases grid_step_cases cq w h mb a with hcase | ⟨hge, hcase⟩
    · rw [hcase]; exact hmb
    · rw [hcase]
      exact ⟨a, hl a (List.mem_cons_self a l), hge, rfl⟩

theorem foldl_grid_found (cq w h : ℚ) (S : ℕ → Prop) (l : List ℕ)
    (hl : ∀ x ∈ l, S x)
    (hex : ∃ x ∈ l, 0 ≤ w * h - cq * (w / x) * (w / x)) {mb : ℚ × ℚ}
    (hmb : mb = (-1, -1) ∨ gridRD cq w h S mb) :
    gridRD cq w h S (l.foldl (grid_step cq w h) mb) := by
  induction l generalizing mb with
  | nil => simp at hex
  | cons a l ih =>
    simp only [List.foldl_cons]
    have htail : ∀ x ∈ l, S x := fun x hx => hl x (List.mem_cons_of_mem a hx)
    obtain ⟨x, hxmem, hxw⟩ := hex
    rcases List.mem_cons.mp hxmem with rfl | hxl
    · -- the witness candidate is the head: after this step the state is a
      -- valid best, and it stays valid through the rest of the scan
      refine foldl_grid_RD cq w h S l htail ?_
      rcases hmb with rfl | hrd
      · rw [grid_step_of_neg_best cq w h x hxw (by norm_num)]
        exact ⟨x, hl x (List.mem_cons_self x l), hxw, rfl⟩
      · rcases grid_step_cases cq w h mb x with hcase | ⟨hge, hcase⟩
        · rw [hcase]; exact hrd
        · rw [hcase]; exact ⟨x, hl x (List.mem_cons_self x l), hge, rfl⟩
    · -- the witness is in the tail: one step keeps the disjunction
      refine ih htail ⟨x, hxl, hxw⟩ ?_
      rcases hmb with rfl | hrd
      · by_cases hwa : w * h - cq * (w / a) * (w / a) < 0
        · rw [grid_step_of_bad cq w h a hwa]; exact Or.inl rfl
        · rw [grid_step_of_neg_best cq w h a (not_lt.mp hwa) (by norm_num)]
          exact Or.inr ⟨a, hl a (List.mem_cons_self a l), not_lt.mp hwa, rfl⟩
      · rcases grid_step_cases cq w h mb a with hcase | ⟨hge, hcase⟩
        · rw [hcase]; exact Or.inr hrd
        · rw [hcase]
          exact Or.inr ⟨a, hl a (List.mem_cons_self a l), hge, rfl⟩

theorem grid_scan_found (count width height : ℕ)
    (hex : ∃ x : ℕ, 1 ≤ x ∧ x < width ∧ 0 ≤ waste_of count width height x) :
    gridRD (count : ℚ) (width : ℚ) (height : ℚ) (fun x => 1 ≤ x ∧ x < width)
      ((List.range' 1 (width - 1)).foldl
        (grid_step (count : ℚ) (width : ℚ) (height : ℚ)) (-1, -1)) := by
  obtain ⟨x, hx1, hx2, hxw⟩ := hex
  have hbound : ∀ y : ℕ, y ∈ List.range' 1 (width - 1) → 1 ≤ y ∧ y < width := by
    intro y hy
    rw [List.mem_range'] at hy
    obtain ⟨i, hi, rfl⟩ := hy
    omega
  have hmem : x ∈ List.range' 1 (width - 1) := by
    rw [List.mem_range']
    exact ⟨x - 1, by omega, by omega⟩
  exact foldl_grid_found _ _ _ _ _ hbound ⟨x, hmem, hxw⟩ (Or.inl rfl)

/-- C3 counterexample: at `count = 5`, `width = 2`, `height = 2` (so
`count >= 1`, `width > 1`, `height > 1`) the returned tile size is the
never-updated sentinel `-1` and `count * s^2 = 5 > 4 = width * height`:
the non-overflow claim fails when no candidate has non-negative waste. -/
theorem grid_overflow_cex :
    (compute_grid 5 2 2).1 = -1 ∧
    ¬ ((5 : ℚ) * (compute_grid 5 2 2).1 ^ 2 ≤ (2 : ℚ) * 2) := by
  have h : (compute_grid 5 2 2).1 = -1 := by
    show (((List.range' 1 1).foldl (grid_step 5 2 2) (-1, -1)).2 : ℚ) = -1
    norm_num [List.range', grid_step]
  exact ⟨h, by rw [h]; norm_num⟩

/-- C3 (amended): whenever at least one candidate column count
`x ∈ 1 .. width-1` has non-negative waste, the tile size `s` returned by
`compute_grid` satisfies `count * s^2 <= width * height`. -/
theorem grid_no_overflow (count width height : ℕ)
    (hex : ∃ x : ℕ, 1 ≤ x ∧ x < width ∧ 0 ≤ waste_of count width height x) :
    (count : ℚ) * (compute_grid count width height).1 ^ 2 ≤ (width : ℚ) * height := by
  obtain ⟨x₀, hS, hw0, hpair⟩ := grid_scan_found count width height hex
  have h1 : (compute_grid count width height).1 =
      ((List.range' 1 (width - 1)).foldl
        (grid_step (count : ℚ) (width : ℚ) (height : ℚ)) (-1, -1)).2 := rfl
  rw [h1, hpair]
  have hsq : (count : ℚ) * ((width : ℚ) / x₀) ^ 2 =
      (count : ℚ) * ((width : ℚ) / x₀) * ((width : ℚ) / x₀) := by ring
  rw [hsq]
  linarith

/-- C3 witness: at `count = 3`, `width = 10`, `height = 10` the candidate
`x = 1` has waste `100 - 300 < 0` but `x = 2` has waste `100 - 75 >= 0`,
and the non-overflow bound holds. -/
theorem grid_no_overflow_witness :
    (3 : ℚ) * (compute_grid 3 10 10).1 ^ 2 ≤ (10 : ℚ) * 10 :=
  grid_no_overflow 3 10 10 ⟨2, by norm_num, by norm_num, by norm_num [waste_of]⟩

/-- C5 counterexample: at `count = 2`, `width = 10`, `height = 3` the scan
selects the valid tile size `10/3` (candidate `x = 3`, waste `70/9 >= 0`),
yet the returned row spacing is `-1/3 < 0`: one row of one tile of edge
`10/3` exceeds the height `3`. -/
theorem grid_row_overflow_cex :
    (compute_grid 2 10 3).1 = 10 / 3 ∧ (compute_grid 2 10 3).2.2.2 < 0 := by
  have h : compute_grid 2 10 3 = (10 / 3, 3, 1, -1 / 3) := by
    show (let cq : ℚ := 2; let w : ℚ := 10; let h : ℚ := 3;
      let scan := (List.range' 1 9).foldl (grid_step cq w h) (-1, -1);
      let best_size := scan.2;
      let count_x := w / best_size;
      let count_y0 := pyFloorDiv cq count_x;
      let count_y := if pyMod cq count_x > 0 then count_y0 + 1 else count_y0;
      let spacing_y := (h - count_y * best_size) / count_y;
      ((best_size, count_x, count_y, spacing_y) : ℚ × ℚ × ℚ × ℚ)) = (10 / 3, 3, 1, -1 / 3)
    norm_num [List.range', grid_step, pyFloorDiv, pyMod]
  rw [h]
  norm_num

/-- C5 (amended): for `count >= 1`, when the scan finds a valid tile size
and the selected column count divides the track count exactly (the
`count % count_x > 0` branch is not taken, i.e. every row of the grid is
full), the returned row spacing `(height - rows*best_size)/rows` is
non-negative, i.e. the packed rows fit inside the rectangle's height. -/
theorem grid_row_fit (count width height : ℕ) (hc : 1 ≤ count)
    (hex : ∃ x : ℕ, 1 ≤ x ∧ x < width ∧ 0 ≤ waste_of count width height x)
    (hdvd : pyMod (count : ℚ) ((compute_grid count width height).2.1) = 0) :
    0 ≤ (compute_grid count width height).2.2.2 := by
  obtain ⟨x₀, ⟨hx1, hx2⟩, hw0, hpair⟩ := grid_scan_found count width height hex
  have hxQpos : (0 : ℚ) < (x₀ : ℚ) := by exact_mod_cast (by omega : 0 < x₀)
  have hwQpos : (0 : ℚ) < (width : ℚ) := by exact_mod_cast (by omega : 0 < width)
  have hcQpos : (0 : ℚ) < (count : ℚ) := by exact_mod_cast (by omega : 0 < count)
  have hxne : (x₀ : ℚ) ≠ 0 := ne_of_gt hxQpos
  have hwne : (width : ℚ) ≠ 0 := ne_of_gt hwQpos
  have h1 : (compute_grid count width height).1 = (width : ℚ) / (x₀ : ℚ) := by
    rw [show (compute_grid count width height).1 =
      ((List.range' 1 (width - 1)).foldl
        (grid_step (count : ℚ) (width : ℚ) (height : ℚ)) (-1, -1)).2 from rfl, hpair]
  have hcx : (compute_grid count width height).2.1 = (x₀ : ℚ) := by
    rw [show (compute_grid count width height).2.1 =
      (width : ℚ) / ((List.range' 1 (width - 1)).foldl
        (grid_step (count : ℚ) (width : ℚ) (height : ℚ)) (-1, -1)).2 from rfl, hpair]
    field_simp
  rw [hcx] at hdvd
  have hk : ((⌊(count : ℚ) / (x₀ : ℚ)⌋ : ℤ) : ℚ) = (count : ℚ) / (x₀ : ℚ) := by
    unfold pyMod at hdvd
    rw [eq_div_iff hxne]
    linarith
  have hcy : (compute_grid count width height).2.2.1 =
      ((⌊(count : ℚ) / (x₀ : ℚ)⌋ : ℤ) : ℚ) := by
    have hraw : (compute_grid count width height).2.2.1 =
        (if pyMod (count : ℚ) ((compute_grid count width height).2.1) > 0
         then pyFloorDiv (count : ℚ) ((compute_grid count width height).2.1) + 1
         else pyFloorDiv (count : ℚ) ((compute_grid count width height).2.1)) := rfl
    rw [hraw, hcx, hdvd, if_neg (by norm_num)]
    unfold pyFloorDiv
    rfl
  have hsp : (compute_grid count width height).2.2.2 =
      ((height : ℚ) -
        (compute_grid count width height).2.2.1 * (compute_grid count width height).1) /
        (compute_grid count width height).2.2.1 := rfl
  rw [hsp, h1, hcy, hk]
  have hkey : (count : ℚ) / x₀ * ((width : ℚ) / x₀) * width ≤ (height : ℚ) * width := by
    have e : (count : ℚ) / x₀ * ((width : ℚ) / x₀) * width =
        (count : ℚ) * ((width : ℚ) / x₀) * ((width : ℚ) / x₀) := by
      field_simp
    rw [e]
    linarith
  have hfit : (count : ℚ) / x₀ * ((width : ℚ) / x₀) ≤ (height : ℚ) :=
    le_of_mul_le_mul_right hkey hwQpos
  exact div_nonneg (by linarith) (le_of_lt (div_pos hcQpos hxQpos))

/-- C5 witness: at `count = 4`, `width = 10`, `height = 10` the scan picks
`x = 2` (tile size 5), the column count 2 divides 4, and the spacing is
non-negative. -/
theorem grid_row_fit_witness : 0 ≤ (compute_grid 4 10 10).2.2.2 :=
  grid_row_fit 4 10 10 (by norm_num)
    ⟨2, by norm_num, by norm_num, by norm_num [waste_of]⟩
    (by
      have h : compute_grid 4 10 10 = (5, 2, 2, 0) := by
        show (let cq : ℚ := 4; let w : ℚ := 10; let h : ℚ := 10;
          let scan := (List.range' 1 9).foldl (grid_step cq w h) (-1, -1);
          let best_size := scan.2;
          let count_x := w / best_size;
          let count_y0 := pyFloorDiv cq count_x;
          let count_y := if pyMod cq count_x > 0 then count_y0 + 1 else count_y0;
          let spacing_y := (h - count_y * best_size) / count_y;
          ((best_size, count_x, count_y, spacing_y) : ℚ × ℚ × ℚ × ℚ)) = (5, 2, 2, 0)
        norm_num [List.range', grid_step, pyFloorDiv, pyMod]
      rw [h]
      norm_num [pyMod])

/-- `latlng2xy` (lines 166-167): the web-Mercator-style projection,
embedded over the reals. -/
noncomputable def latlng2xy (lat lng : ℝ) : ℝ × ℝ :=
  (lng / 180 + 1,
    0.5 - Real.log (Real.tan (Real.pi / 4 * (1 + lat / 90))) / Real.pi)

/-- C9: the `x` output of `latlng2xy` is strictly increasing in `lng` (for
any fixed `lat`), and the `y` output is strictly decreasing in `lat` on the
open interval (-90, 90) (for any fixed `lng`). -/
theorem latlng2xy_mono (lat lng1 lng2 lng lat1 lat2 : ℝ)
    (hlng : lng1 < lng2) (h1 : -90 < lat1) (h2 : lat1 < lat2) (h3 : lat2 < 90) :
    (latlng2xy lat lng1).1 < (latlng2xy lat lng2).1 ∧
    (latlng2xy lat2 lng).2 < (latlng2xy lat1 lng).2 := by
  constructor
  · show lng1 / 180 + 1 < lng2 / 180 + 1
    linarith
  · show 0.5 - Real.log (Real.tan (Real.pi / 4 * (1 + lat2 / 90))) / Real.pi <
      0.5 - Real.log (Real.tan (Real.pi / 4 * (1 + lat1 / 90))) / Real.pi
    have hpi := Real.pi_pos
    have hq : (0 : ℝ) < Real.pi / 4 := by linarith
    have h01 : 0 < Real.pi / 4 * (1 + lat1 / 90) := by
      apply mul_pos hq
      linarith
    have h12 : Real.pi / 4 * (1 + lat1 / 90) < Real.pi / 4 * (1 + lat2 / 90) := by
      apply mul_lt_mul_of_pos_left _ hq
      linarith
    have h2half : Real.pi / 4 * (1 + lat2 / 90) < Real.pi / 2 := by
      have hb : 1 + lat2 / 90 < 2 := by linarith
      have := mul_lt_mul_of_pos_left hb hq
      linarith
    have htpos : 0 < Real.tan (Real.pi / 4 * (1 + lat1 / 90)) :=
      Real.tan_pos_of_pos_of_lt_pi_div_two h01 (lt_trans h12 h2half)
    have htan : Real.tan (Real.pi / 4 * (1 + lat1 / 90)) <
        Real.tan (Real.pi / 4 * (1 + lat2 / 90)) :=
      Real.tan_lt_tan_of_lt_of_lt_pi_div_two (by linarith) h2half h12
    have hlog := Real.log_lt_log htpos htan
    have hdiv : Real.log (Real.tan (Real.pi / 4 * (1 + lat1 / 90))) / Real.pi <
        Real.log (Real.tan (Real.pi / 4 * (1 + lat2 / 90))) / Real.pi := by
      gcongr
    linarith

/-- C9 witness: longitude 0 projects left of longitude 1, and latitude 45
projects above (smaller y than) latitude 0. -/
theorem latlng2xy_mono_witness :
    (latlng2xy 0 0).1 < (latlng2xy 0 1).1 ∧ (latlng2xy 45 0).2 < (latlng2xy 0 0).2 :=
  latlng2xy_mono 0 0 1 0 0 45 (by norm_num) (by norm_num) (by norm_num) (by norm_num)

/-- The two runtime errors the drawing path can raise. -/
inductive PyErr where
  | zeroDivision : PyErr
  | typeError : PyErr
deriving DecidableEq, Repr

/-- One point of the `compute_bounds` scan (lines 170-187): first point
initializes all four bounds, later points extend them with min/max. -/
noncomputable def bounds_step (acc : Option (ℝ × ℝ × ℝ × ℝ)) (p : ℝ × ℝ) :
    Option (ℝ × ℝ × ℝ × ℝ) :=
  match acc with
  | none => some (p.1, p.2, p.1, p.2)
  | some (mx, my, Mx, My) => some (min p.1 mx, min p.2 my, max p.1 Mx, max p.2 My)

/-- `compute_bounds`: fold over all points of all polylines, returning
(min_x, min_y, max_x, max_y), or `none` (the all-`None` tuple) when there
is no point at all. -/
noncomputable def compute_bounds (lines : List (List (ℝ × ℝ))) :
    Option (ℝ × ℝ × ℝ × ℝ) :=
  lines.flatten.foldl bounds_step none

/-- `draw_track` (lines 190-220): project, compute bounds and scale, then
emit the scaled polylines (the `drawing.add` calls consume them).
`width/d_x` with `d_x = 0` is a float `ZeroDivisionError`; with no points
at all, `max_x - min_x` is `None - None`, a `TypeError`.  The checks appear
in the evaluation order of the source expressions. -/
noncomputable def draw_track (polylines : List (List (ℝ × ℝ)))
    (x_offset y_offset width height : ℝ) : Except PyErr (List (List (ℝ × ℝ))) :=
  let lines := polylines.map (fun line => line.map (fun p => latlng2xy p.1 p.2))
  match compute_bounds lines with
  | none => .error .typeError
  | some (min_x, min_y, max_x, max_y) =>
    let d_x := max_x - min_x
    let d_y := max_y - min_y
    if d_x = 0 then .error .zeroDivision
    else if height = 0 then .error .zeroDivision
    else if d_y = 0 then .error .zeroDivision
    else
      let scale := if width / height > d_x / d_y then height / d_y else width / d_x
      let x_offset2 := x_offset + 0.5 * width - 0.5 * scale * d_x
      let y_offset2 := y_offset + 0.5 * height - 0.5 * scale * d_y
      .ok (lines.map (fun line => line.map (fun q =>
        (x_offset2 + scale * (q.1 - min_x), y_offset2 + scale * (q.2 - min_y)))))

theorem bounds_foldl_const_x {v : ℝ} (pts : List (ℝ × ℝ)) :
    ∀ my My : ℝ, (∀ p ∈ pts, p.1 = v) →
    ∃ my2 My2, pts.foldl bounds_step (some (v, my, v, My)) = some (v, my2, v, My2) := by
  induction pts with
  | nil => intro my My _; exact ⟨my, My, rfl⟩
  | cons q rest ih =>
    intro my My hall
    have hq : q.1 = v := hall q (List.mem_cons_self q rest)
    simp only [List.foldl_cons, bounds_step, hq, min_self, max_self]
    exact ih _ _ (fun p hp => hall p (List.mem_cons_of_mem q hp))

theorem compute_bounds_const_x {v : ℝ} (lines : List (List (ℝ × ℝ)))
    (hne : lines.flatten ≠ [])
    (hx : ∀ p ∈ lines.flatten, p.1 = v) :
    ∃ my My, compute_bounds lines = some (v, my, v, My) := by
  unfold compute_bounds
  rcases List.exists_cons_of_ne_nil hne with ⟨q, rest, hj⟩
  rw [hj]
  have hq : q.1 = v := hx q (by rw [hj]; exact List.mem_cons_self q rest)
  simp only [List.foldl_cons, bounds_step, hq]
  exact bounds_foldl_const_x rest q.2 q.2
    (fun p hp => hx p (by rw [hj]; exact List.mem_cons_of_mem q hp))

theorem bounds_step_pred (acc : Option (ℝ × ℝ × ℝ × ℝ))
    (h : ∀ mx my Mx My, acc = some (mx, my, Mx, My) → mx ≤ Mx ∧ my ≤ My)
    (p : ℝ × ℝ) :
    ∀ mx my Mx My, bounds_step acc p = some (mx, my, Mx, My) → mx ≤ Mx ∧ my ≤ My := by
  rcases acc with _ | ⟨a, b, c, d⟩
  · intro mx my Mx My heq
    simp only [bounds_step, Option.some.injEq, Prod.mk.injEq] at heq
    obtain ⟨rfl, rfl, rfl, rfl⟩ := heq
    exact ⟨le_refl _, le_refl _⟩
  · intro mx my Mx My heq
    obtain ⟨hac, hbd⟩ := h a b c d rfl
    simp only [bounds_step, Option.some.injEq, Prod.mk.injEq] at heq
    obtain ⟨rfl, rfl, rfl, rfl⟩ := heq
    exact ⟨le_trans (min_le_right _ _) (le_trans hac (le_max_right _ _)),
      le_trans (min_le_right _ _) (le_trans hbd (le_max_right _ _))⟩

theorem bounds_foldl_pred (pts : List (ℝ × ℝ)) :
    ∀ acc : Option (ℝ × ℝ × ℝ × ℝ),
    (∀ mx my Mx My, acc = some (mx, my, Mx, My) → mx ≤ Mx ∧ my ≤ My) →
    ∀ mx my Mx My, pts.foldl bounds_step acc = some (mx, my, Mx, My) →
      mx ≤ Mx ∧ my ≤ My := by
  induction pts with
  | nil => intro acc h; exact h
  | cons q rest ih =>
    intro acc h
    simp only [List.foldl_cons]
    exact ih _ (bounds_step_pred acc h q)

theorem compute_bounds_le (lines : List (List (ℝ × ℝ))) (mx my Mx My : ℝ)
    (h : compute_bounds lines = some (mx, my, Mx, My)) : mx ≤ Mx ∧ my ≤ My :=
  bounds_foldl_pred lines.flatten none (by intro _ _ _ _ h0; cases h0) mx my Mx My h

/-- C10: drawing a track all of whose points share one longitude (single
point tracks included) hits the division `width/d_x` with `d_x = 0` and
fails with a ZeroDivisionError; conversely a successful draw requires the
projected bounding box to have strictly positive width and height. -/
theorem draw_track_degenerate (polylines : List (List (ℝ × ℝ))) (xo yo w ht : ℝ) :
    (polylines.flatten ≠ [] →
      ∀ c : ℝ, (∀ p ∈ polylines.flatten, p.2 = c) →
        draw_track polylines xo yo w ht = .error .zeroDivision) ∧
    (∀ res, draw_track polylines xo yo w ht = .ok res →
      ∃ mx my Mx My,
        compute_bounds
            (polylines.map (fun line => line.map (fun p => latlng2xy p.1 p.2)))
          = some (mx, my, Mx, My) ∧ 0 < Mx - mx ∧ 0 < My - my) := by
  constructor
  · intro hne c hc
    have hflat : (polylines.map (fun line => line.map (fun p => latlng2xy p.1 p.2))).flatten
        = polylines.flatten.map (fun p => latlng2xy p.1 p.2) :=
      (List.map_flatten _ _).symm
    have hne2 : (polylines.map (fun line => line.map (fun p => latlng2xy p.1 p.2))).flatten
        ≠ [] := by
      rw [hflat]
      simpa [List.map_eq_nil_iff] using hne
    have hx : ∀ p ∈ (polylines.map (fun line => line.map (fun p => latlng2xy p.1 p.2))).flatten,
        p.1 = c / 180 + 1 := by
      rw [hflat]
      intro p hp
      rw [List.mem_map] at hp
      obtain ⟨q, hq, rfl⟩ := hp
      show q.2 / 180 + 1 = c / 180 + 1
      rw [hc q hq]
    obtain ⟨my, My, hb⟩ := compute_bounds_const_x _ hne2 hx
    simp [draw_track, hb]
  · intro res hok
    rcases hbm : compute_bounds
        (polylines.map (fun line => line.map (fun p => latlng2xy p.1 p.2))) with
      _ | ⟨mx, my, Mx, My⟩
    · exfalso
      simp [draw_track, hbm] at hok
    · have hle := compute_bounds_le _ mx my Mx My hbm
      by_cases hdx : Mx - mx = 0
      · exfalso
        simp [draw_track, hbm, hdx] at hok
      · by_cases hh : ht = 0
        · exfalso
          simp [draw_track, hbm, hdx, hh] at hok
        · by_cases hdy : My - my = 0
          · exfalso
            simp [draw_track, hbm, hdx, hh, hdy] at hok
          · exact ⟨mx, my, Mx, My, hbm,
              lt_of_le_of_ne (sub_nonneg.mpr hle.1) (Ne.symm hdx),
              lt_of_le_of_ne (sub_nonneg.mpr hle.2) (Ne.symm hdy)⟩

/-- C10 witness: a two-point track on the meridian lng = 10 makes
`draw_track` raise the ZeroDivisionError. -/
theorem draw_track_degenerate_witness :
    draw_track [[((0 : ℝ), (10 : ℝ)), (5, 10)]] 0 0 1 1 = .error .zeroDivision :=
  (draw_track_degenerate [[((0 : ℝ), (10 : ℝ)), (5, 10)]] 0 0 1 1).1 (by simp) 10
    (by
      intro p hp
      simp only [List.flatten, List.append_nil, List.mem_cons,
        List.not_mem_nil, or_false] at hp
      rcases hp with rfl | rfl <;> rfl)

/-- The comparison key of `sorted(tracks, key=lambda t: t.start_time)`. -/
def track_le (u v : Track) : Prop := timeQ u.start_time ≤ timeQ v.start_time

instance : DecidableRel track_le :=
  fun u v => inferInstanceAs (Decidable (timeQ u.start_time ≤ timeQ v.start_time))

/-- The per-file body of the loading loop of `load_tracks` (lines 123-141):
`pr` is (base file name, parse outcome); `none` models a parse exception
(caught and logged, the file is skipped).  A successfully loaded track is
tagged as highlight when its base name is among the highlight file names,
then discarded when its length is 0, its start time is unset, or its start
year differs from the requested year. -/
def select_track (year : ℤ) (highlight_filenames : List String)
    (pr : String × Option Track) : Option Track :=
  match pr.2 with
  | none => none
  | some t0 =>
    let t := if pr.1 ∈ highlight_filenames then { t0 with highlight := true } else t0
    if t.length = 0 then none
    else match t.start_time with
      | none => none
      | some st => if st.year ≠ year then none else some t

/-- `load_tracks` (lines 118-162) from the per-file load outcomes on: keep
the surviving tracks, sort them by start time (Python's stable sort), run
the merge pass, and drop sessions shorter than `min_length = 1000`. -/
def load_tracks (results : List (String × Option Track)) (year : ℤ)
    (highlight_filenames : List String) : List Track :=
  let min_length : ℚ := 1000
  let tracks := results.filterMap (select_track year highlight_filenames)
  let sorted_tracks := List.insertionSort track_le tracks
  let merged_tracks := (sorted_tracks.foldl merge_step ([], none)).1
  merged_tracks.filter (fun t => min_length ≤ t.length)

theorem select_track_mem (year : ℤ) (hl : List String) (pr : String × Option Track)
    (t : Track) (h : select_track year hl pr = some t) :
    t.length ≠ 0 ∧ ∃ st, t.start_time = some st ∧ st.year = year := by
  rcases pr with ⟨fn, r⟩
  cases r with
  | none => simp [select_track] at h
  | some t0 =>
    simp only [select_track] at h
    generalize ht1 : (if fn ∈ hl then { t0 with highlight := true } else t0) = t1 at h
    by_cases h0 : t1.length = 0
    · rw [if_pos h0] at h; cases h
    · rw [if_neg h0] at h
      cases hst : t1.start_time with
      | none => rw [hst] at h; exact absurd h (by simp)
      | some st =>
        rw [hst] at h
        dsimp only at h
        by_cases hy : st.year ≠ year
        · rw [if_pos hy] at h; cases h
        · rw [if_neg hy] at h
          obtain rfl := Option.some.inj h
          exact ⟨h0, st, hst, not_not.mp hy⟩

theorem merge_fold_start (Q : Option Time → Prop) :
    ∀ (l : List Track) (st : List Track × Option Time),
    (∀ u ∈ st.1, Q u.start_time) → (∀ u ∈ l, Q u.start_time) →
    ∀ u ∈ (l.foldl merge_step st).1, Q u.start_time := by
  intro l
  induction l with
  | nil => intro st h1 _ u hu; exact h1 u hu
  | cons x xs ih =>
    intro st h1 h2
    simp only [List.foldl_cons]
    apply ih
    · intro u hu
      have hQx : Q x.start_time := h2 x (List.mem_cons_self x xs)
      rcases st with ⟨m, le⟩
      cases le with
      | none =>
        simp only [merge_step, List.mem_append, List.mem_singleton] at hu
        rcases hu with hu | rfl
        · exact h1 u hu
        · exact hQx
      | some le0 =>
        simp only [merge_step] at hu
        split at hu
        · unfold append_last at hu
          cases hgl : m.getLast? with
          | none => rw [hgl] at hu; exact h1 u hu
          | some ulast =>
            rw [hgl] at hu
            simp only [List.mem_append, List.mem_singleton] at hu
            rcases hu with hu | rfl
            · exact h1 u (List.dropLast_subset m hu)
            · have hm : ulast ∈ m := by
                obtain ⟨ys, hys⟩ := List.getLast?_eq_some_iff.mp hgl
                rw [hys]
                simp
              show Q (ulast.append x).start_time
              show Q ulast.start_time
              exact h1 ulast hm
        · simp only [List.mem_append, List.mem_singleton] at hu
          rcases hu with hu | rfl
          · exact h1 u hu
          · exact hQx
    · intro u hu
      exact h2 u (List.mem_cons_of_mem x hu)

/-- C7: every track in the output of `load_tracks` has length at least
1000 m (hence nonzero), a set start time, and a start year equal to the
requested year. -/
theorem load_tracks_filter (results : List (String × Option Track)) (year : ℤ)
    (hl : List String) (t : Track) (ht : t ∈ load_tracks results year hl) :
    1000 ≤ t.length ∧ t.length ≠ 0 ∧
      ∃ st, t.start_time = some st ∧ st.year = year := by
  unfold load_tracks at ht
  rw [List.mem_filter] at ht
  obtain ⟨hmem, hlen⟩ := ht
  have hlen2 : (1000 : ℚ) ≤ t.length := by
    simpa using of_decide_eq_true hlen
  refine ⟨hlen2, ?_, ?_⟩
  · intro h0
    rw [h0] at hlen2
    norm_num at hlen2
  · have hQ := merge_fold_start (fun s => ∃ st, s = some st ∧ st.year = year)
      (List.insertionSort track_le (results.filterMap (select_track year hl)))
      ([], none) (by intro u hu; cases hu) ?_ t hmem
    · exact hQ
    · intro u hu
      have hu2 : u ∈ results.filterMap (select_track year hl) :=
        (List.perm_insertionSort track_le _).mem_iff.mp hu
      rw [List.mem_filterMap] at hu2
      obtain ⟨pr, _, hsel⟩ := hu2
      exact (select_track_mem year hl pr u hsel).2

/-- C7 witness: a concrete one-file run whose single surviving session is
2000 m long, started in 2016 as requested. -/
theorem load_tracks_filter_witness :
    1000 ≤ trackA.length ∧ trackA.length ≠ 0 ∧
      ∃ st, trackA.start_time = some st ∧ st.year = 2016 :=
  load_tracks_filter [("a.gpx", some trackA)] 2016 [] trackA
    (by
      show trackA ∈ load_tracks [("a.gpx", some trackA)] 2016 []
      norm_num [load_tracks, select_track, List.filterMap, List.insertionSort,
        List.orderedInsert, merge_step, List.filter, trackA])
